import Mathlib

/-!
Formal model of the message-relay API implemented in `src/main.py`.

The Python program is a FastAPI application backed by a flat JSON user
file (`kullanicilar.json`) and a RabbitMQ broker.  The request-handling
logic is embedded as pure Lean functions; the persisted user file and the
broker are explicit state parameters, and HTTP failures are modelled as
`Except Nat` values carrying the status code that `HTTPException` would
produce.  Each definition is a direct translation of the corresponding
Python function; doc comments cite the source.
-/

set_option autoImplicit false

namespace RabbitRelay

/-- A persisted user record: `class User(BaseModel)` in `main.py` with
`id: int`, `name: str`, `email: EmailStr`.  Email-format validation is
performed by Pydantic before a handler body runs, so inside the handlers
an email is just a string; Python `int` is unbounded, hence `Int`. -/
structure User where
  id : Int
  name : String
  email : String
deriving DecidableEq, Repr

/-- A registration request body: `class NewUser(BaseModel)` with
`name: str`, `email: EmailStr`. -/
structure NewUser where
  name : String
  email : String
deriving DecidableEq, Repr

/-- A message payload: `class Message(BaseModel)` with `sender_id: int`,
`receiver_id: int`, `subject: str`, `content: str`, `timestamp: str`.
The published broker payload is `json.dumps(msg.dict())`, i.e. exactly
these five fields. -/
structure Message where
  sender_id : Int
  receiver_id : Int
  subject : String
  content : String
  timestamp : String
deriving DecidableEq, Repr

set_option linter.unusedVariables false in
/-- The `timestamp` field of `Message` carries the Python default
`datetime.now().strftime('%Y-%m-%d %H:%M:%S')`.  A Pydantic field default
written as a plain expression is evaluated exactly once, when the class
body executes at module import; it is NOT re-evaluated per construction
(that would require `default_factory`).  This function embeds
construction of a `Message` without an explicit timestamp: it receives
both the wall-clock strings, and — following the Python semantics — the
resulting record carries `class_def_time`, ignoring `construction_time`. -/
def message_default (class_def_time construction_time : String)
    (sid rid : Int) (subject content : String) : Message :=
  ⟨sid, rid, subject, content, class_def_time⟩

/-- The state of the user file `kullanicilar.json` as `load_users` can
observe it: missing, present but not parseable as JSON, or parseable to a
list of records. -/
inductive FileState where
  | missing
  | unparsable
  | parsed (users : List User)
deriving DecidableEq, Repr

/-- `load_users()` from `main.py`: returns `[]` when the file does not
exist; opens and `json.load`s it otherwise, returning `[]` when a
`json.JSONDecodeError` (or a racy `FileNotFoundError`) is raised.  The
function is total — its Lean type returns a plain list, mirroring that
no exception escapes in the modelled cases. -/
def load_users : FileState → List User
  | FileState.missing => []
  | FileState.unparsable => []
  | FileState.parsed users => users

/-- Python `max` over a non-empty list of integers is a left fold of the
binary `max` over the tail, started at the head; the `[]` branch is a
sentinel never reached by `new_id`. -/
def pyMax : List Int → Int
  | [] => 0
  | i :: is => is.foldl max i

/-- The id computed by `register_user`:
`max([user['id'] for user in users]) + 1 if users else 1`. -/
def new_id (users : List User) : Int :=
  match users with
  | [] => 1
  | _ => pyMax (users.map fun u => u.id) + 1

/-- Decidable equality for `Except`, so that concrete HTTP outcomes can
be checked by `decide` in the examples below. -/
instance {ε α : Type} [DecidableEq ε] [DecidableEq α] : DecidableEq (Except ε α) := fun a b =>
  match a, b with
  | Except.error e, Except.error f =>
      if h : e = f then Decidable.isTrue (by rw [h])
      else Decidable.isFalse (fun hc => h (by injection hc))
  | Except.error _, Except.ok _ => Decidable.isFalse (fun hc => Except.noConfusion hc)
  | Except.ok _, Except.error _ => Decidable.isFalse (fun hc => Except.noConfusion hc)
  | Except.ok x, Except.ok y =>
      if h : x = y then Decidable.isTrue (by rw [h])
      else Decidable.isFalse (fun hc => h (by injection hc))

/-- Observable outcome of one `register_user` call: the HTTP response
(`Except` status-code), the list that is persisted on disk when the call
returns (the input list itself when nothing was written), and whether
`save_users` was invoked. -/
structure RegisterOutcome where
  response : Except Nat User
  store : List User
  saved : Bool
deriving DecidableEq, Repr

/-- `register_user` from `main.py` (lines 76–97) applied to the loaded
list `users`: raises 400 when `any(user['email'] == new_user.email for
user in users)` — a case-sensitive exact string comparison — and
otherwise appends `{id: new_id, name, email}` and calls `save_users`. -/
def register_user (users : List User) (new_user : NewUser) : RegisterOutcome :=
  if users.any (fun user => user.email == new_user.email) then
    ⟨Except.error 400, users, false⟩
  else
    let user : User := ⟨new_id users, new_user.name, new_user.email⟩
    ⟨Except.ok user, users ++ [user], true⟩

/-- Sequential registration: fold `register_user` over a list of
requests, each call seeing the store the previous call persisted. -/
def register_seq (new_users : List NewUser) (users : List User) : List User :=
  new_users.foldl (fun st nu => (register_user st nu).store) users

/-- `login_user` from `main.py` (lines 99–108): the `for` loop returns
the first stored record whose email equals the request email, and the
fall-through raises 404. -/
def login_user (users : List User) (email : String) : Except Nat User :=
  match users with
  | [] => Except.error 404
  | user :: rest =>
      if user.email == email then Except.ok user else login_user rest email

/-- The lookup dictionary `user_map = {user["id"]: user for user in users}`
built at the top of `send_message` and `check_for_messages`.  A Python
dict comprehension keeps the LAST entry for a duplicated key, i.e. the
first match when scanning the list in reverse. -/
def user_map_get (users : List User) (uid : Int) : Option User :=
  users.reverse.find? fun user => user.id == uid

/-- The membership test `uid in user_map`: some stored record has id
`uid`. -/
def id_in_map (users : List User) (uid : Int) : Bool :=
  users.any fun user => user.id == uid

/-- The queue name `f"user_queue_{id}"` used by both `send_message` and
`check_for_messages`. -/
def queue_name (uid : Int) : String :=
  "user_queue_" ++ toString uid

/-- The broker state visible to this program: the durable queues it has
declared, each a FIFO list of message payloads keyed by queue name.
Publishing appends at the tail; `basic_get` takes from the head. -/
abbrev Broker : Type := List (String × List Message)

/-- Whether a queue of the given name exists on the broker. -/
def containsQueue : Broker → String → Bool
  | [], _ => false
  | p :: bs, q => (p.1 == q) || containsQueue bs q

/-- `channel.queue_declare(queue=q, durable=True)`: idempotent creation —
a no-op when the queue exists, otherwise an empty queue appears. -/
def queue_declare (b : Broker) (q : String) : Broker :=
  if containsQueue b q then b else b ++ [(q, [])]

/-- `channel.basic_publish(exchange='', routing_key=q, body=...)` with
the default exchange: the payload is appended at the tail of queue `q`. -/
def basic_publish : Broker → String → Message → Broker
  | [], _, _ => []
  | p :: bs, q, m => (if p.1 == q then (p.1, p.2 ++ [m]) else p) :: basic_publish bs q m

/-- The current contents of queue `q` (empty when the queue does not
exist). -/
def getQueue : Broker → String → List Message
  | [], _ => []
  | p :: bs, q => if p.1 == q then p.2 else getQueue bs q

/-- Replace the contents of queue `q` (used to state that a drain leaves
the queue empty). -/
def setQueue : Broker → String → List Message → Broker
  | [], _, _ => []
  | p :: bs, q, ms => (if p.1 == q then (p.1, ms) else p) :: setQueue bs q ms

/-- The broker interactions a single `send_message` call performs, in
order. -/
inductive BrokerEvent where
  | connect
  | declareQueue (q : String)
  | publish (q : String) (m : Message)
deriving DecidableEq, Repr

/-- Observable outcome of one `send_message` call: the HTTP response
(`Except.ok` for the success acknowledgment body), the broker state
afterwards, and the ordered list of broker interactions performed. -/
structure SendOutcome where
  response : Except Nat Unit
  broker : Broker
  events : List BrokerEvent

/-- `send_message` from `main.py` (lines 111–137): raises 404 before any
broker code runs when `msg.sender_id not in user_map or msg.receiver_id
not in user_map`; otherwise connects, declares the receiver's durable
queue and publishes `msg` with persistent delivery.  The broker itself is
assumed available here: the `except` branch (500) models a failure of the
external broker, which the state-passing embedding takes as reachable
only through that external failure, not through this control flow. -/
def send_message (users : List User) (b : Broker) (msg : Message) : SendOutcome :=
  if !(id_in_map users msg.sender_id) || !(id_in_map users msg.receiver_id) then
    ⟨Except.error 404, b, []⟩
  else
    let q := queue_name msg.receiver_id
    let b1 := queue_declare b q
    let b2 := basic_publish b1 q msg
    ⟨Except.ok (), b2, [BrokerEvent.connect, BrokerEvent.declareQueue q, BrokerEvent.publish q msg]⟩

/-- A message as returned by `check_for_messages`: the decoded payload
`message_data`, plus the `sender_name` key that is added only when the
sender id resolves in `user_map` at check time. -/
structure DeliveredMessage where
  msg : Message
  sender_name : Option String
deriving DecidableEq, Repr

/-- One iteration step of the drain loop in `check_for_messages`, in the
order the code performs them: `basic_get` fetches a payload, `basic_ack`
acknowledges it, the decoded record is appended to `messages_to_return`,
and the loop `break`s when `basic_get` returns no frame. -/
inductive DrainAction where
  | fetch (m : Message)
  | ack (m : Message)
  | appendResult (d : DeliveredMessage)
  | reportEmpty
deriving DecidableEq, Repr

/-- Lines 162–166 of `main.py`: decode the payload, look the sender up in
`user_map`, and attach `sender_name` only when the lookup succeeds. -/
def decorate (users : List User) (m : Message) : DeliveredMessage :=
  match user_map_get users m.sender_id with
  | some sender => ⟨m, some sender.name⟩
  | none => ⟨m, none⟩

/-- The `while True` drain loop (lines 156–166): `basic_get` one payload
with `auto_ack=False`, `basic_ack` it, decorate it, append it to the
result, and stop when the queue reports empty.  Returns the accumulated
result list together with the trace of actions performed. -/
def drain (users : List User) : List Message → List DeliveredMessage × List DrainAction
  | [] => ([], [DrainAction.reportEmpty])
  | m :: ms =>
      let d := decorate users m
      let rest := drain users ms
      (d :: rest.1,
        DrainAction.fetch m :: DrainAction.ack m :: DrainAction.appendResult d :: rest.2)

/-- Observable outcome of one `check_for_messages` call: the HTTP
response (status string plus accumulated message list on success) and the
broker state afterwards. -/
structure CheckOutcome where
  response : Except Nat (String × List DeliveredMessage)
  broker : Broker

/-- `check_for_messages` from `main.py` (lines 140–174): raises 404 when
`user_id not in user_map`; otherwise declares the user's durable queue,
drains it (each fetched message is acknowledged immediately, so the queue
is empty afterwards) and returns `{"status": "ok", "messages": [...]}`.
As with `send_message`, the broker is assumed available. -/
def check_for_messages (users : List User) (b : Broker) (user_id : Int) : CheckOutcome :=
  if !(id_in_map users user_id) then
    ⟨Except.error 404, b⟩
  else
    let q := queue_name user_id
    let b1 := queue_declare b q
    let queue := getQueue b1 q
    ⟨Except.ok ("ok", (drain users queue).1), setQueue b1 q []⟩

/-- A fixed pair of registered users for concrete instantiations. -/
def demoUsers : List User :=
  [User.mk 1 "Ada" "ada@x.com", User.mk 2 "Bob" "bob@x.com"]

/-- A concrete message from user 1 to user 2. -/
def demoMsg : Message :=
  Message.mk 1 2 "hi" "hello" "2024-01-01 09:00:00"

theorem getQueue_of_not_contains (b : Broker) (q : String)
    (h : containsQueue b q = false) : getQueue b q = [] := by
  induction b with
  | nil => rfl
  | cons p bs ih =>
      simp only [containsQueue, Bool.or_eq_false_iff] at h
      simp [getQueue, h.1, ih h.2]

theorem queue_declare_of_contains (b : Broker) (q : String)
    (h : containsQueue b q = true) : queue_declare b q = b := by
  simp [queue_declare, h]

theorem containsQueue_append (b c : Broker) (q : String) :
    containsQueue (b ++ c) q = (containsQueue b q || containsQueue c q) := by
  induction b with
  | nil => simp [containsQueue]
  | cons p bs ih => simp [containsQueue, ih, Bool.or_assoc]

theorem containsQueue_declare_self (b : Broker) (q : String) :
    containsQueue (queue_declare b q) q = true := by
  unfold queue_declare
  by_cases h : containsQueue b q = true
  · simp [h]
  · simp [h, containsQueue_append, containsQueue]

theorem getQueue_declare_self (b : Broker) (q : String) :
    getQueue (queue_declare b q) q = getQueue b q := by
  unfold queue_declare
  by_cases h : containsQueue b q = true
  · simp [h]
  · simp only [Bool.not_eq_true] at h
    simp only [h, Bool.false_eq_true, if_false]
    rw [getQueue_of_not_contains b q h]
    induction b with
    | nil => simp [getQueue]
    | cons p bs ih =>
        simp only [containsQueue, Bool.or_eq_false_iff] at h
        simp only [List.cons_append, getQueue, h.1, Bool.false_eq_true, if_false]
        exact ih h.2

theorem containsQueue_publish (b : Broker) (q r : String) (m : Message) :
    containsQueue (basic_publish b q m) r = containsQueue b r := by
  induction b with
  | nil => rfl
  | cons p bs ih =>
      by_cases hp : (p.1 == q) = true
      · simp [basic_publish, containsQueue, hp, ih]
      · simp [basic_publish, containsQueue, hp, ih]

theorem containsQueue_setQueue (b : Broker) (q r : String) (ms : List Message) :
    containsQueue (setQueue b q ms) r = containsQueue b r := by
  induction b with
  | nil => rfl
  | cons p bs ih =>
      by_cases hp : (p.1 == q) = true
      · simp [setQueue, containsQueue, hp, ih]
      · simp [setQueue, containsQueue, hp, ih]

theorem getQueue_publish_self (b : Broker) (q : String) (m : Message)
    (h : containsQueue b q = true) :
    getQueue (basic_publish b q m) q = getQueue b q ++ [m] := by
  induction b with
  | nil => simp [containsQueue] at h
  | cons p bs ih =>
      by_cases hp : (p.1 == q) = true
      · simp [basic_publish, getQueue, hp]
      · have h' : containsQueue bs q = true := by
          simp only [containsQueue, hp, Bool.false_or] at h
          exact h
        simp [basic_publish, getQueue, hp, ih h']

theorem getQueue_setQueue_nil (b : Broker) (q : String) :
    getQueue (setQueue b q []) q = [] := by
  induction b with
  | nil => rfl
  | cons p bs ih =>
      by_cases hp : (p.1 == q) = true
      · simp [setQueue, getQueue, hp]
      · simp [setQueue, getQueue, hp, ih]

theorem drain_fst (users : List User) (queue : List Message) :
    (drain users queue).1 = queue.map (decorate users) := by
  induction queue with
  | nil => rfl
  | cons m ms ih => simp [drain, ih]

theorem decorate_msg (users : List User) (m : Message) :
    (decorate users m).msg = m := by
  unfold decorate
  cases user_map_get users m.sender_id <;> rfl

theorem user_map_get_of_id_in_map (users : List User) (uid : Int)
    (h : id_in_map users uid = true) :
    ∃ u, user_map_get users uid = some u ∧ u.id = uid := by
  have hex : ∃ u ∈ users, (u.id == uid) = true := by
    simpa [id_in_map, List.any_eq_true] using h
  obtain ⟨u, hu, hid⟩ := hex
  have : ∃ v, users.reverse.find? (fun user => user.id == uid) = some v := by
    rw [← Option.isSome_iff_exists, List.find?_isSome]
    exact ⟨u, List.mem_reverse.2 hu, hid⟩
  obtain ⟨v, hv⟩ := this
  have hvid := List.find?_some hv
  exact ⟨v, hv, by simpa using hvid⟩

theorem check_ok_of_empty_queue (users : List User) (b : Broker) (uid : Int)
    (hu : id_in_map users uid = true)
    (hq : getQueue b (queue_name uid) = []) :
    (check_for_messages users b uid).response = Except.ok ("ok", []) := by
  have hdecl : getQueue (queue_declare b (queue_name uid)) (queue_name uid) = [] := by
    rw [getQueue_declare_self]
    exact hq
  simp [check_for_messages, hu, hdecl, drain]

/-- Claim C1: for every store state and every registration request whose
email is already present in the store (case-sensitive exact string
match), `register_user` fails with Conflict (HTTP 400) and the persisted
store is unchanged: no record is appended and no save is performed. -/
theorem register_duplicate_email_conflict (users : List User) (nu : NewUser)
    (h : users.any (fun user => user.email == nu.email) = true) :
    (register_user users nu).response = Except.error 400 ∧
    (register_user users nu).store = users ∧
    (register_user users nu).saved = false := by
  simp [register_user, h]

/-- Witness for C1: registering a second user with Ada's email fails with
400 and leaves the store untouched. -/
theorem register_duplicate_email_conflict_witness :
    (demoUsers.any (fun user => user.email == (NewUser.mk "Eve" "ada@x.com").email) = true) ∧
    ((register_user demoUsers (NewUser.mk "Eve" "ada@x.com")).response = Except.error 400 ∧
      (register_user demoUsers (NewUser.mk "Eve" "ada@x.com")).store = demoUsers ∧
      (register_user demoUsers (NewUser.mk "Eve" "ada@x.com")).saved = false) :=
  ⟨by decide,
    register_duplicate_email_conflict demoUsers (NewUser.mk "Eve" "ada@x.com") (by decide)⟩

/-- Claim C8: `load_users` returns the empty list when the store file is
missing or unparsable, and the parsed list otherwise.  Its Lean type —
total, returning a plain list — reflects that the Python function
catches `json.JSONDecodeError` and `FileNotFoundError` and never raises
in those cases. -/
theorem load_users_total (fs : FileState) :
    (fs = FileState.missing → load_users fs = []) ∧
    (fs = FileState.unparsable → load_users fs = []) ∧
    (∀ users, fs = FileState.parsed users → load_users fs = users) := by
  refine ⟨?_, ?_, ?_⟩
  · rintro rfl; rfl
  · rintro rfl; rfl
  · rintro users rfl; rfl

/-- Witness for C8 at all three concrete file states. -/
theorem load_users_total_witness :
    load_users FileState.missing = [] ∧
    load_users FileState.unparsable = [] ∧
    load_users (FileState.parsed demoUsers) = demoUsers :=
  ⟨(load_users_total FileState.missing).1 rfl,
    (load_users_total FileState.unparsable).2.1 rfl,
    (load_users_total (FileState.parsed demoUsers)).2.2 demoUsers rfl⟩

/-- Claim C7 is REFUTED by the code: the Pydantic field default
`timestamp: str = datetime.now().strftime('%Y-%m-%d %H:%M:%S')` is
evaluated once, when the `Message` class body executes at module import,
not at each construction.  Two messages constructed without an explicit
timestamp at two different times therefore carry the SAME timestamp (the
import-time one), and neither reflects its own construction time. -/
theorem timestamp_default_frozen :
    (message_default "2024-01-01 08:00:00" "2024-01-01 09:30:00" 1 2 "a" "b").timestamp =
      (message_default "2024-01-01 08:00:00" "2024-01-01 11:45:00" 1 2 "a" "b").timestamp ∧
    ("2024-01-01 09:30:00" : String) ≠ "2024-01-01 11:45:00" ∧
    (message_default "2024-01-01 08:00:00" "2024-01-01 09:30:00" 1 2 "a" "b").timestamp ≠
      "2024-01-01 09:30:00" :=
  ⟨rfl, by decide, by decide⟩

/-- Claim C4: when the sender id or the receiver id is absent from the
store at call time, `send_message` fails with 404 and performs no broker
interaction: the broker state is untouched and the event list is empty
(no connection, no declaration, no publish). -/
theorem send_unknown_participant_no_broker (users : List User) (b : Broker) (msg : Message)
    (h : id_in_map users msg.sender_id = false ∨ id_in_map users msg.receiver_id = false) :
    (send_message users b msg).response = Except.error 404 ∧
    (send_message users b msg).broker = b ∧
    (send_message users b msg).events = [] := by
  have hcond : (!(id_in_map users msg.sender_id) || !(id_in_map users msg.receiver_id)) = true := by
    rcases h with h | h <;> simp [h]
  simp [send_message, hcond]

/-- Witness for C4: sending from the unregistered id 7 fails with 404,
leaves a non-trivial broker untouched and performs no broker event. -/
theorem send_unknown_participant_no_broker_witness :
    (id_in_map demoUsers (Message.mk 7 2 "s" "c" "t").sender_id = false) ∧
    ((send_message demoUsers [(queue_name 2, [demoMsg])] (Message.mk 7 2 "s" "c" "t")).response
        = Except.error 404 ∧
      (send_message demoUsers [(queue_name 2, [demoMsg])] (Message.mk 7 2 "s" "c" "t")).broker
        = [(queue_name 2, [demoMsg])] ∧
      (send_message demoUsers [(queue_name 2, [demoMsg])] (Message.mk 7 2 "s" "c" "t")).events
        = []) :=
  ⟨by decide,
    send_unknown_participant_no_broker demoUsers [(queue_name 2, [demoMsg])]
      (Message.mk 7 2 "s" "c" "t") (Or.inl (by decide))⟩

/-- Claim C6: for a user id present in the store whose queue holds no
messages, `check_for_messages` succeeds with status "ok" and an empty
message list, not an error. -/
theorem check_empty_queue_ok (users : List User) (b : Broker) (uid : Int)
    (hu : id_in_map users uid = true)
    (hq : getQueue b (queue_name uid) = []) :
    (check_for_messages users b uid).response = Except.ok ("ok", []) :=
  check_ok_of_empty_queue users b uid hu hq

/-- Witness for C6: checking user 1 against a broker that has no queue
for it returns "ok" with an empty list. -/
theorem check_empty_queue_ok_witness :
    (id_in_map demoUsers (1 : Int) = true) ∧
    (getQueue [] (queue_name 1) = []) ∧
    (check_for_messages demoUsers [] 1).response = Except.ok ("ok", []) :=
  ⟨by decide, rfl, check_empty_queue_ok demoUsers [] 1 (by decide) rfl⟩

/-- Claim C10: a drained message whose `sender_id` does not resolve in
the user store at check time is still returned, merely without a
`sender_name`; the missing sender neither errors nor aborts the drain. -/
theorem check_unknown_sender_still_returned (users : List User) (b : Broker) (uid : Int)
    (m : Message)
    (hu : id_in_map users uid = true)
    (hm : m ∈ getQueue b (queue_name uid))
    (hs : user_map_get users m.sender_id = none) :
    ∃ ds, (check_for_messages users b uid).response = Except.ok ("ok", ds) ∧
      DeliveredMessage.mk m none ∈ ds := by
  refine ⟨(drain users (getQueue (queue_declare b (queue_name uid)) (queue_name uid))).1,
    ?_, ?_⟩
  · simp [check_for_messages, hu]
  · rw [drain_fst, getQueue_declare_self]
    have hd : decorate users m = DeliveredMessage.mk m none := by simp [decorate, hs]
    exact hd ▸ List.mem_map_of_mem (decorate users) hm

/-- Witness for C10: a queued message from the unregistered id 99 is
returned to user 1 without a sender name. -/
theorem check_unknown_sender_still_returned_witness :
    (id_in_map demoUsers (1 : Int) = true) ∧
    (Message.mk 99 1 "s" "c" "t" ∈
      getQueue [(queue_name 1, [Message.mk 99 1 "s" "c" "t"])] (queue_name 1)) ∧
    (user_map_get demoUsers (Message.mk 99 1 "s" "c" "t").sender_id = none) ∧
    (∃ ds, (check_for_messages demoUsers [(queue_name 1, [Message.mk 99 1 "s" "c" "t"])]
          1).response = Except.ok ("ok", ds) ∧
      DeliveredMessage.mk (Message.mk 99 1 "s" "c" "t") none ∈ ds) :=
  ⟨by decide, by decide, by decide,
    check_unknown_sender_still_returned demoUsers
      [(queue_name 1, [Message.mk 99 1 "s" "c" "t"])] 1 (Message.mk 99 1 "s" "c" "t")
      (by decide) (by decide) (by decide)⟩

/-- Claim C3: login with an email matching no stored record fails with
404; login with an email that matches at least one record returns the
FIRST matching record, exactly as stored (the store splits as
`pre ++ u :: post` with no match in `pre` and `u` the returned record). -/
theorem login_first_match (users : List User) (email : String) :
    ((∀ u ∈ users, u.email ≠ email) → login_user users email = Except.error 404) ∧
    ((∃ u ∈ users, u.email = email) →
      ∃ pre u post, users = pre ++ u :: post ∧ (∀ v ∈ pre, v.email ≠ email) ∧
        u.email = email ∧ login_user users email = Except.ok u) := by
  induction users with
  | nil =>
      refine ⟨fun _ => rfl, ?_⟩
      rintro ⟨u, hu, -⟩
      exact absurd hu (List.not_mem_nil u)
  | cons w rest ih =>
      constructor
      · intro h
        have hw : (w.email == email) = false := by
          simp [h w (List.mem_cons_self w rest)]
        simp only [login_user, hw, Bool.false_eq_true, if_false]
        exact ih.1 fun v hv => h v (List.mem_cons_of_mem w hv)
      · rintro ⟨u, hu, he⟩
        by_cases hw : w.email = email
        · exact ⟨[], w, rest, by simp, by simp, hw, by simp [login_user, hw]⟩
        · have hu' : u ∈ rest := by
            rcases List.mem_cons.1 hu with rfl | h'
            · exact absurd he hw
            · exact h'
          obtain ⟨pre, v, post, h1, h2, h3, h4⟩ := ih.2 ⟨u, hu', he⟩
          have hwb : (w.email == email) = false := by simp [hw]
          refine ⟨w :: pre, v, post, by simp [h1], ?_, h3, ?_⟩
          · intro x hx
            rcases List.mem_cons.1 hx with rfl | h'
            · exact hw
            · exact h2 x h'
          · simp only [login_user, hwb, Bool.false_eq_true, if_false]
            exact h4

/-- Witness for C3: an unknown email yields 404, and Bob's email yields
the first (only) record carrying it. -/
theorem login_first_match_witness :
    login_user demoUsers "nobody@x.com" = Except.error 404 ∧
    (∃ pre u post, demoUsers = pre ++ u :: post ∧
      (∀ v ∈ pre, v.email ≠ "bob@x.com") ∧ u.email = "bob@x.com" ∧
      login_user demoUsers "bob@x.com" = Except.ok u) :=
  ⟨(login_first_match demoUsers "nobody@x.com").1 (by decide),
    (login_first_match demoUsers "bob@x.com").2
      ⟨User.mk 2 "Bob" "bob@x.com", by decide, rfl⟩⟩

/-- Claim C9: in a successful drain, messages are fetched one at a time,
each fetched message is acknowledged to the broker and only then appended
to the result, and the loop ends exactly when the queue reports empty:
the returned list is the decorated queue, the action trace is the block
fetch-ack-append repeated once per queued message followed by a single
`reportEmpty`, and any `appendResult` at trace position `i` has the
acknowledgment of its message strictly earlier in the trace — no message
is returned while still unacknowledged. -/
theorem drain_ack_before_return (users : List User) (queue : List Message) :
    (drain users queue).1 = queue.map (decorate users) ∧
    (drain users queue).2 =
      (queue.flatMap fun m =>
        [DrainAction.fetch m, DrainAction.ack m,
          DrainAction.appendResult (decorate users m)]) ++ [DrainAction.reportEmpty] ∧
    (∀ i d, (drain users queue).2.get? i = some (DrainAction.appendResult d) →
      DrainAction.ack d.msg ∈ (drain users queue).2.take i) := by
  refine ⟨drain_fst users queue, ?_, ?_⟩
  · induction queue with
    | nil => rfl
    | cons m ms ih => simp [drain, ih]
  · induction queue with
    | nil =>
        intro i d hd
        cases i with
        | zero => simp [drain] at hd
        | succ j => cases j <;> simp [drain, List.get?] at hd
    | cons m ms ih =>
        intro i d hd
        match i with
        | 0 => simp [drain, List.get?] at hd
        | 1 => simp [drain, List.get?] at hd
        | 2 =>
            have hde : DrainAction.appendResult (decorate users m) =
                DrainAction.appendResult d := by
              simpa [drain, List.get?] using hd
            have hdd : d = decorate users m := by
              injection hde with h
              exact h.symm
            subst hdd
            simp [drain, List.take, decorate_msg]
        | (j+3) =>
            have hd' : (drain users ms).2.get? j = some (DrainAction.appendResult d) := by
              simpa [drain, List.get?] using hd
            have hmem := ih j d hd'
            have htake : (drain users (m :: ms)).2.take (j+3) =
                DrainAction.fetch m :: DrainAction.ack m ::
                  DrainAction.appendResult (decorate users m) ::
                    (drain users ms).2.take j := by
              simp [drain, List.take]
            rw [htake]
            exact List.mem_cons_of_mem _ (List.mem_cons_of_mem _
              (List.mem_cons_of_mem _ hmem))

/-- Witness for C9: for the single-message queue `[demoMsg]`, position 2
of the trace is the append of the decorated message, and its
acknowledgment occurs among the first two actions. -/
theorem drain_ack_before_return_witness :
    (drain demoUsers [demoMsg]).2.get? 2 =
      some (DrainAction.appendResult (decorate demoUsers demoMsg)) ∧
    DrainAction.ack (decorate demoUsers demoMsg).msg ∈
      (drain demoUsers [demoMsg]).2.take 2 :=
  ⟨by decide,
    (drain_ack_before_return demoUsers [demoMsg]).2.2 2 (decorate demoUsers demoMsg)
      (by decide)⟩

/-- The integer list `[1, 2, ..., n]` of ids a run of `n` successful
registrations from an empty store produces. -/
def intList : Nat → List Int
  | 0 => []
  | n + 1 => intList n ++ [(n : Int) + 1]

theorem intList_length (n : Nat) : (intList n).length = n := by
  induction n with
  | zero => rfl
  | succ k ih => simp [intList, ih]

theorem intList_mem_le (n : Nat) : ∀ a ∈ intList n, a ≤ (n : Int) := by
  induction n with
  | zero => intro a ha; simp [intList] at ha
  | succ k ih =>
      intro a ha
      rw [intList] at ha
      rcases List.mem_append.1 ha with h | h
      · have := ih a h
        push_cast
        linarith
      · simp at h
        subst h
        push_cast
        linarith

theorem intList_pairwise (n : Nat) : (intList n).Pairwise (· < ·) := by
  induction n with
  | zero => exact List.Pairwise.nil
  | succ k ih =>
      rw [intList]
      refine List.pairwise_append.2 ⟨ih, List.pairwise_singleton _ _, ?_⟩
      intro a ha b hb
      simp at hb
      subst hb
      have := intList_mem_le k a ha
      linarith

theorem pyMax_append_single (i : Int) (is : List Int) (x : Int) :
    pyMax ((i :: is) ++ [x]) = max (pyMax (i :: is)) x := by
  simp [pyMax, List.foldl_append]

theorem pyMax_intList (n : Nat) : pyMax (intList (n + 1)) = (n : Int) + 1 := by
  induction n with
  | zero => decide
  | succ k ih =>
      obtain ⟨j, js, hjs⟩ : ∃ j js, intList (k + 1) = j :: js := by
        cases h : intList (k + 1) with
        | nil =>
            have hl := intList_length (k + 1)
            rw [h] at hl
            simp at hl
        | cons j js => exact ⟨j, js, rfl⟩
      have h1 : intList (k + 1 + 1) = intList (k + 1) ++ [((k + 1 : Nat) : Int) + 1] := rfl
      rw [h1, hjs, pyMax_append_single, ← hjs, ih]
      rw [max_eq_right (by push_cast; linarith)]

theorem new_id_intList (store : List User) (k : Nat)
    (h : store.map (fun u => u.id) = intList k) :
    new_id store = (k : Int) + 1 := by
  cases store with
  | nil =>
      cases k with
      | zero => decide
      | succ j =>
          exfalso
          have hl := intList_length (j + 1)
          rw [← h] at hl
          simp at hl
  | cons u us =>
      cases k with
      | zero =>
          exfalso
          have hl := congrArg List.length h
          simp [intList] at hl
      | succ j =>
          have hn : new_id (u :: us) = pyMax ((u :: us).map fun u => u.id) + 1 := rfl
          rw [hn, h, pyMax_intList]
          push_cast
          ring

theorem foldl_max_mem (is : List Int) : ∀ i : Int, is.foldl max i ∈ i :: is := by
  induction is with
  | nil => intro i; simp
  | cons x xs ih =>
      intro i
      have h := ih (max i x)
      show xs.foldl max (max i x) ∈ i :: x :: xs
      rcases List.mem_cons.1 h with h1 | h1
      · rcases max_choice i x with hm | hm
        · rw [h1, hm]; exact List.mem_cons_self _ _
        · rw [h1, hm]; exact List.mem_cons_of_mem _ (List.mem_cons_self _ _)
      · exact List.mem_cons_of_mem _ (List.mem_cons_of_mem _ h1)

theorem le_foldl_max (is : List Int) : ∀ i : Int, ∀ j ∈ i :: is, j ≤ is.foldl max i := by
  induction is with
  | nil =>
      intro i j hj
      simp at hj
      simp [hj]
  | cons x xs ih =>
      intro i j hj
      show j ≤ xs.foldl max (max i x)
      rcases List.mem_cons.1 hj with rfl | hj1
      · exact le_trans (le_max_left j x) (ih (max j x) _ (List.mem_cons_self _ _))
      · rcases List.mem_cons.1 hj1 with rfl | hj2
        · exact le_trans (le_max_right i j) (ih (max i j) _ (List.mem_cons_self _ _))
        · exact ih (max i x) j (List.mem_cons_of_mem _ hj2)

theorem register_seq_ids_aux (nus : List NewUser) :
    ∀ (store : List User) (k : Nat),
      store.map (fun u => u.id) = intList k →
      (store.map (fun u => u.email) ++ nus.map (fun nu => nu.email)).Nodup →
      (register_seq nus store).map (fun u => u.id) = intList (k + nus.length) := by
  induction nus with
  | nil =>
      intro store k h _
      simpa [register_seq] using h
  | cons nu rest ih =>
      intro store k h hnd
      have hnotmem : nu.email ∉ store.map (fun u => u.email) := by
        rw [List.nodup_append] at hnd
        exact fun hmem => hnd.2.2 hmem (by simp)
      have hconf : (store.any fun user => user.email == nu.email) = false := by
        rw [List.any_eq_false]
        intro u hu
        simp only [beq_iff_eq]
        intro he
        exact hnotmem (he ▸ List.mem_map_of_mem _ hu)
      have hreg : (register_user store nu).store =
          store ++ [User.mk (new_id store) nu.name nu.email] := by
        simp [register_user, hconf]
      have hseq : register_seq (nu :: rest) store =
          register_seq rest (store ++ [User.mk (new_id store) nu.name nu.email]) := by
        simp [register_seq, hreg]
      rw [hseq]
      have hid : (store ++ [User.mk (new_id store) nu.name nu.email]).map (fun u => u.id)
          = intList (k + 1) := by
        rw [List.map_append, h, new_id_intList store k h]
        rfl
      have hem : ((store ++ [User.mk (new_id store) nu.name nu.email]).map
            (fun u => u.email) ++ rest.map (fun nu => nu.email)).Nodup := by
        rw [List.map_append, List.append_assoc]
        simpa using hnd
      rw [ih (store ++ [User.mk (new_id store) nu.name nu.email]) (k + 1) hid hem]
      congr 1
      simp
      omega

/-- Claim C2: a successful registration assigns the new user the id
max-existing-id + 1 (1 when the store is empty); consequently registering
N users with pairwise distinct emails sequentially from an empty store
yields exactly the strictly increasing unique ids 1, 2, ..., N. -/
theorem register_assigns_sequential_ids (nus : List NewUser)
    (h : (nus.map fun nu => nu.email).Nodup) :
    (register_seq nus []).map (fun u => u.id) = intList nus.length ∧
    ((register_seq nus []).map (fun u => u.id)).Pairwise (· < ·) ∧
    (∀ nu, ∃ u, (register_user [] nu).response = Except.ok u ∧ u.id = 1) ∧
    (∀ (users : List User) (nu : NewUser),
      (users.any fun user => user.email == nu.email) = false → users ≠ [] →
      ∃ u m, (register_user users nu).response = Except.ok u ∧
        u.id = m + 1 ∧ m ∈ users.map (fun v => v.id) ∧
        ∀ i ∈ users.map (fun v => v.id), i ≤ m) := by
  have h1 : (register_seq nus []).map (fun u => u.id) = intList nus.length := by
    have := register_seq_ids_aux nus [] 0 rfl (by simpa using h)
    simpa using this
  refine ⟨h1, ?_, ?_, ?_⟩
  · rw [h1]
    exact intList_pairwise _
  · intro nu
    exact ⟨User.mk 1 nu.name nu.email, by simp [register_user, new_id], rfl⟩
  · intro users nu hconf hne
    cases users with
    | nil => exact absurd rfl hne
    | cons u us =>
        refine ⟨User.mk (new_id (u :: us)) nu.name nu.email,
          pyMax ((u :: us).map fun v => v.id), ?_, ?_, ?_, ?_⟩
        · simp [register_user, hconf]
        · rfl
        · exact foldl_max_mem (us.map fun v => v.id) u.id
        · exact le_foldl_max (us.map fun v => v.id) u.id

/-- Witness for C2: registering Ada then Bob from an empty store yields
the id list `[1, 2]`. -/
theorem register_assigns_sequential_ids_witness :
    (([NewUser.mk "Ada" "ada@x.com", NewUser.mk "Bob" "bob@x.com"].map
        fun nu => nu.email).Nodup) ∧
    (register_seq [NewUser.mk "Ada" "ada@x.com", NewUser.mk "Bob" "bob@x.com"] []).map
      (fun u => u.id) = intList 2 :=
  ⟨by decide,
    (register_assigns_sequential_ids
      [NewUser.mk "Ada" "ada@x.com", NewUser.mk "Bob" "bob@x.com"] (by decide)).1⟩

/-- Claim C5: after sending message `msg` to an existing receiver, an
immediate check of the receiver's queue succeeds and returns a list
containing `msg` decorated with the sender's stored name, and a second
immediate check returns the empty list — every drained message is
acknowledged and never redelivered, so each message is consumed exactly
once. -/
theorem send_then_check_roundtrip (users : List User) (b : Broker) (msg : Message)
    (hs : id_in_map users msg.sender_id = true)
    (hr : id_in_map users msg.receiver_id = true) :
    ∃ sender, user_map_get users msg.sender_id = some sender ∧
      (send_message users b msg).response = Except.ok () ∧
      (∃ ds, (check_for_messages users (send_message users b msg).broker
            msg.receiver_id).response = Except.ok ("ok", ds) ∧
        DeliveredMessage.mk msg (some sender.name) ∈ ds) ∧
      (check_for_messages users
          (check_for_messages users (send_message users b msg).broker
            msg.receiver_id).broker msg.receiver_id).response = Except.ok ("ok", []) := by
  obtain ⟨sender, hget, -⟩ := user_map_get_of_id_in_map users msg.sender_id hs
  have hcond : (!(id_in_map users msg.sender_id) || !(id_in_map users msg.receiver_id))
      = false := by simp [hs, hr]
  have hresp : (send_message users b msg).response = Except.ok () := by
    simp [send_message, hcond]
  have hbrok : (send_message users b msg).broker =
      basic_publish (queue_declare b (queue_name msg.receiver_id))
        (queue_name msg.receiver_id) msg := by
    simp [send_message, hcond]
  have hcont1 : containsQueue (queue_declare b (queue_name msg.receiver_id))
      (queue_name msg.receiver_id) = true := containsQueue_declare_self _ _
  have hcont2 : containsQueue (send_message users b msg).broker
      (queue_name msg.receiver_id) = true := by
    rw [hbrok, containsQueue_publish]
    exact hcont1
  have hqueue : getQueue (send_message users b msg).broker (queue_name msg.receiver_id)
      = getQueue b (queue_name msg.receiver_id) ++ [msg] := by
    rw [hbrok, getQueue_publish_self _ _ _ hcont1, getQueue_declare_self]
  have hdecl2 : queue_declare (send_message users b msg).broker
      (queue_name msg.receiver_id) = (send_message users b msg).broker :=
    queue_declare_of_contains _ _ hcont2
  have hcheck1 : (check_for_messages users (send_message users b msg).broker
      msg.receiver_id).response =
      Except.ok ("ok", (getQueue b (queue_name msg.receiver_id) ++ [msg]).map
        (decorate users)) := by
    simp [check_for_messages, hr, hdecl2, hqueue, drain_fst]
  have hmem : DeliveredMessage.mk msg (some sender.name) ∈
      (getQueue b (queue_name msg.receiver_id) ++ [msg]).map (decorate users) := by
    have hd : decorate users msg = DeliveredMessage.mk msg (some sender.name) := by
      simp [decorate, hget]
    exact hd ▸ List.mem_map_of_mem (decorate users) (by simp)
  have hbrok3 : (check_for_messages users (send_message users b msg).broker
      msg.receiver_id).broker =
      setQueue (send_message users b msg).broker (queue_name msg.receiver_id) [] := by
    simp [check_for_messages, hr, hdecl2]
  have hcont3 : containsQueue (check_for_messages users (send_message users b msg).broker
      msg.receiver_id).broker (queue_name msg.receiver_id) = true := by
    rw [hbrok3, containsQueue_setQueue]
    exact hcont2
  have hq3 : getQueue (check_for_messages users (send_message users b msg).broker
      msg.receiver_id).broker (queue_name msg.receiver_id) = [] := by
    rw [hbrok3]
    exact getQueue_setQueue_nil _ _
  have hdecl3 : queue_declare (check_for_messages users (send_message users b msg).broker
      msg.receiver_id).broker (queue_name msg.receiver_id) =
      (check_for_messages users (send_message users b msg).broker
        msg.receiver_id).broker :=
    queue_declare_of_contains _ _ hcont3
  have hcheck2 : (check_for_messages users
      (check_for_messages users (send_message users b msg).broker
        msg.receiver_id).broker msg.receiver_id).response = Except.ok ("ok", []) :=
    check_ok_of_empty_queue users _ msg.receiver_id hr hq3
  exact ⟨sender, hget, hresp, ⟨_, hcheck1, hmem⟩, hcheck2⟩

/-- Witness for C5: Ada sends `demoMsg` to Bob on a fresh broker; the
first check of Bob's queue returns it with sender name "Ada", the second
returns nothing. -/
theorem send_then_check_roundtrip_witness :
    (id_in_map demoUsers demoMsg.sender_id = true) ∧
    (id_in_map demoUsers demoMsg.receiver_id = true) ∧
    (∃ sender, user_map_get demoUsers demoMsg.sender_id = some sender ∧
      (send_message demoUsers [] demoMsg).response = Except.ok () ∧
      (∃ ds, (check_for_messages demoUsers (send_message demoUsers [] demoMsg).broker
            demoMsg.receiver_id).response = Except.ok ("ok", ds) ∧
        DeliveredMessage.mk demoMsg (some sender.name) ∈ ds) ∧
      (check_for_messages demoUsers
          (check_for_messages demoUsers (send_message demoUsers [] demoMsg).broker
            demoMsg.receiver_id).broker demoMsg.receiver_id).response =
        Except.ok ("ok", [])) :=
  ⟨by decide, by decide,
    send_then_check_roundtrip demoUsers [] demoMsg (by decide) (by decide)⟩

end RabbitRelay
